import Mathlib

/-!
Verification of the st-react-flow-pro flow-chart widget
(`src/st_react_flow_pro/frontend/src/App.tsx` and the node/edge modules).

The numeric type of the embedding is `ℚ` (the source works with JS numbers
at the level of exact arithmetic on small coordinates). JS objects holding
style entries are modelled as association lists `List (String × Option String)`
where a `none` value models a key present with value `undefined`. Optional
fields (`measured`, `style`, `type`, ...) are `Option`s.

The Dagre layout algorithm itself is a third-party library (an external
collaborator of the repository); it is modelled abstractly as a total
assignment of center points to the ids of the built graph, exactly the
shape `Dagre.layout(g)` followed by `g.node(id)` exposes to the code under
verification. Everything the repository's own code does — building the
graph, the 100×50 size defaults, the center-to-top-left conversion, the
border rewriting, the theme fallbacks, the host update effect and the
deferred fit-view timer — is translated from the source.
-/

namespace STReactFlow

/-- A 2D point, as produced by the layout engine and stored in `position`. -/
structure Pt where
  x : ℚ
  y : ℚ
deriving DecidableEq, Repr

/-- Mirrors `interface MeasuredDimensions` with optional width and height. -/
structure MeasuredDimensions where
  width : Option ℚ
  height : Option ℚ
deriving DecidableEq, Repr

/-- A JS style object: key-value entries, a `none` value standing for a key
that is present but bound to `undefined`. -/
abbrev StyleMap := List (String × Option String)

/-- The fields of `MeasuredNode` (the `@xyflow/react` `Node` extended with
`measured`) that the code under verification reads or writes. The host-owned
`data` payload is opaque to the core and kept as a key-value list. -/
structure MeasuredNode where
  id : String
  type : Option String
  position : Pt
  data : List (String × String)
  measured : Option MeasuredDimensions
  style : Option StyleMap
deriving DecidableEq, Repr

/-- The fields of the `@xyflow/react` `Edge` the code reads. -/
structure FlowEdge where
  id : String
  source : String
  target : String
  type : Option String
  animated : Option Bool
deriving DecidableEq, Repr

/-- Mirrors `interface LayoutOptions`, a direction string. -/
structure LayoutOptions where
  direction : String
deriving DecidableEq, Repr

/-- The `initialNodes` value from `src/nodes/index.ts`:
`[{ id: 'a', type: 'input', position: { x: 0, y: 0 }, data: { label: 'Start' } }]`. -/
def initialNodes : List MeasuredNode :=
  [{ id := "a", type := some "input", position := { x := 0, y := 0 },
     data := [("label", "Start")], measured := none, style := none }]

/-- The `initialEdges` value from `src/edges.ts` (unnamed part):
`[{ id: 'a->c', source: 'a', target: 'c', animated: true }]`. -/
def initialEdges : List FlowEdge :=
  [{ id := "a->c", source := "a", target := "c", type := none, animated := some true }]

/-- The label `{ width: node.measured?.width ?? 100, height: node.measured?.height ?? 50 }`
passed to `g.setNode` for one node. -/
structure DagreNodeLabel where
  width : ℚ
  height : ℚ
deriving DecidableEq, Repr

/-- The Dagre graph as the adapter builds it: the `rankdir` graph option, the
`setNode` calls in input order, and the `setEdge` calls in input order. -/
structure DagreGraph where
  rankdir : String
  nodeLabels : List (String × DagreNodeLabel)
  edgePairs : List (String × String)
deriving DecidableEq, Repr

/-- The label `{ width: node.measured?.width ?? 100, height: node.measured?.height ?? 50 }`
as passed to `g.setNode` for one node. -/
def dagreNodeLabelOf (node : MeasuredNode) : DagreNodeLabel :=
  { width := (node.measured.bind (·.width)).getD 100,
    height := (node.measured.bind (·.height)).getD 50 }

/-- Lines 55-65 of `App.tsx`: create the graph, `setGraph({ rankdir })`,
one `setNode` per node, one `setEdge` per edge. -/
def buildDagreGraph (nodes : List MeasuredNode) (edges : List FlowEdge)
    (opts : LayoutOptions) : DagreGraph :=
  { rankdir := opts.direction,
    nodeLabels := nodes.map (fun n => (n.id, dagreNodeLabelOf n)),
    edgePairs := edges.map (fun e => (e.source, e.target)) }

/-- In graphlib, `setNode` registers a node id and `setEdge(v, w)` implicitly
creates both endpoint nodes; these are exactly the ids `Dagre.layout`
assigns positions to. -/
def hasGraphNode (g : DagreGraph) (id : String) : Bool :=
  g.nodeLabels.any (fun p => p.1 == id) ||
    g.edgePairs.any (fun p => p.1 == id || p.2 == id)

/-- The layout engine (`Dagre.layout`), modelled abstractly: a total
assignment of a center point to each node id of a built graph. The code under
verification only observes it through `g.node(id)` after layout. -/
abbrev LayoutAlg := DagreGraph → String → Pt

/-- Reading `g.node(id)` after `Dagre.layout(g)`: a center point for ids present in
the graph, `undefined` (here `none`) for unknown ids. Reading `.x` off an
`undefined` result would be a runtime error in the source, which the
`Option` in `layoutNodesList` models. -/
def dagreNodeAfterLayout (alg : LayoutAlg) (g : DagreGraph) (id : String) : Option Pt :=
  if hasGraphNode g id then some (alg g id) else none

/-- Lines 69-76 of `App.tsx`, the body of the `nodes.map` callback once the
center `position = g.node(node.id)` is in hand:
`{ ...node, position: { x: position.x - width / 2, y: position.y - height / 2 } }`. -/
def layoutedNode (node : MeasuredNode) (center : Pt) : MeasuredNode :=
  let width := (node.measured.bind (·.width)).getD 100
  let height := (node.measured.bind (·.height)).getD 50
  { node with position := { x := center.x - width / 2, y := center.y - height / 2 } }

/-- The `nodes.map` of lines 69-76, with the `g.node(node.id)` lookup made
explicit: `none` models the map callback throwing on an id missing from the
graph. -/
def layoutNodesList (alg : LayoutAlg) (g : DagreGraph) :
    List MeasuredNode → Option (List MeasuredNode)
  | [] => some []
  | node :: rest =>
    match dagreNodeAfterLayout alg g node.id with
    | none => none
    | some c => (layoutNodesList alg g rest).map (fun ns => layoutedNode node c :: ns)

/-- The function `getLayoutedElements` (lines 50-79 of `App.tsx`): build the Dagre graph,
run the layout, convert each center back to a top-left position, and return
the new node list together with the untouched edge list. -/
def getLayoutedElements (alg : LayoutAlg) (nodes : List MeasuredNode)
    (edges : List FlowEdge) (opts : LayoutOptions) :
    Option (List MeasuredNode × List FlowEdge) :=
  let g := buildDagreGraph nodes edges opts
  (layoutNodesList alg g nodes).map (fun ns => (ns, edges))

/-- The per-node result of a successful layout: node `n` re-positioned at the
engine's center for `n.id`. -/
def layoutUpdate (alg : LayoutAlg) (g : DagreGraph) (node : MeasuredNode) : MeasuredNode :=
  layoutedNode node (alg g node.id)

/-- An edge whose `source` or `target` id does not occur among the node ids
(the dangling-edge situation of spec §7). -/
def hasDanglingEdge (nodes : List MeasuredNode) (edges : List FlowEdge) : Bool :=
  edges.any (fun e =>
    !(nodes.any (fun n => n.id == e.source)) || !(nodes.any (fun n => n.id == e.target)))

/-- The themed highlight border string `` `2px solid ${styles.primaryColor}` ``. -/
def highlightBorder (primaryColor : String) : String :=
  "2px solid " ++ primaryColor

/-- Rebinding of one entry by the spread `{...st, border: v}`: a `border`
entry gets the new value in place, any other entry is untouched. -/
def setBorderEntry (v : Option String) (kv : String × Option String) :
    String × Option String :=
  if kv.1 == "border" then (kv.1, v) else kv

/-- The JS object spread `{...st, border: v}`: if a `border` key exists its
value is replaced in place, otherwise the key is appended at the end. -/
def spreadBorder (st : StyleMap) (v : Option String) : StyleMap :=
  if st.any (fun kv => kv.1 == "border") then st.map (setBorderEntry v)
  else st ++ [("border", v)]

/-- The body of the `prevNodes.map` callback in `addBorderToNode`
(lines 175-184 of `App.tsx`): spread the node, spread its style (or `{}`),
and bind `border` to the themed string on the target and to `undefined`
elsewhere. -/
def borderUpdate (primaryColor nodeId : String) (node : MeasuredNode) : MeasuredNode :=
  { node with
    style := some (spreadBorder (node.style.getD [])
      (if node.id = nodeId then some (highlightBorder primaryColor) else none)) }

/-- The callback `addBorderToNode` (lines 173-188 of `App.tsx`) as the pure state update it
passes to `setNodes`. -/
def addBorderToNode (primaryColor nodeId : String) (nodes : List MeasuredNode) :
    List MeasuredNode :=
  nodes.map (borderUpdate primaryColor nodeId)

/-- First-match lookup of a key in a style object (JS property access on
objects built without duplicate keys). `some none` is a key present with
value `undefined`; `none` is an absent key. -/
def styleLookup (st : StyleMap) (key : String) : Option (Option String) :=
  match st with
  | [] => none
  | (k, v) :: rest => if k = key then some v else styleLookup rest key

/-- The `theme` member of `FlowChartArgs` (lines 37-42 of `App.tsx`). -/
structure ThemeArgs where
  base : Option String
  secondaryBackgroundColor : Option String
  textColor : Option String
  primaryColor : Option String
deriving DecidableEq, Repr

/-- The value computed by `useFlowChartStyles`. -/
structure ResolvedStyles where
  backgroundColor : String
  textColor : String
  primaryColor : String
deriving DecidableEq, Repr

/-- JS `a || b` on an optional string: the left operand when it is present
and truthy (non-empty), the default otherwise. -/
def jsOr (v : Option String) (d : String) : String :=
  match v with
  | some s => if s = "" then d else s
  | none => d

/-- The hook `useFlowChartStyles` (lines 117-126 of `App.tsx`):
`isDark = theme?.base === "dark"`, then each field falls back with `||`. -/
def useFlowChartStyles (theme : Option ThemeArgs) : ResolvedStyles :=
  let isDark : Bool := (theme.bind (·.base)) == some "dark"
  { backgroundColor := jsOr (theme.bind (·.secondaryBackgroundColor))
      (if isDark then "#333" else "#fff"),
    textColor := jsOr (theme.bind (·.textColor)) (if isDark then "#fff" else "#000"),
    primaryColor := jsOr (theme.bind (·.primaryColor)) "#007bff" }

/-- Mirrors `FlowChartArgs` (lines 33-43 of `App.tsx`); every field optional. -/
structure FlowChartArgs where
  nodes : Option (List MeasuredNode)
  edges : Option (List FlowEdge)
  borderNodeId : Option String
  theme : Option ThemeArgs

/-- The node/edge state owned by `useNodesState` / `useEdgesState`. -/
structure FlowState where
  nodes : List MeasuredNode
  edges : List FlowEdge
deriving DecidableEq, Repr

/-- The props-change effect (lines 163-170 of `App.tsx`): when the host sends
a `nodes` array, `setNodes(args.nodes)` replaces the node state with it;
likewise for `edges`; an absent field leaves the state alone. (A JS array is
always truthy, so presence is the only test.) -/
def applyHostUpdate (args : FlowChartArgs) (s : FlowState) : FlowState :=
  { nodes := match args.nodes with
      | some ns => ns
      | none => s.nodes,
    edges := match args.edges with
      | some es => es
      | none => s.edges }

/-- Events of the fit-view effect (lines 213-218 of `App.tsx`) on the
single-threaded JS event loop: the effect body running
(`setTimeout(() => fitView(), 0)`), the effect cleanup running
(`clearTimeout(timeoutId)`, invoked by React before re-running the effect
and on unmount), and the event loop reaching a due timer. -/
inductive FVEvent where
  | effectRun
  | cleanupRun
  | timerTick
deriving DecidableEq, Repr

/-- Observable state of the fit-view timer: whether a scheduled callback is
pending, and how many times `fitView` has executed. -/
structure FVState where
  pending : Bool
  fitViewRuns : Nat
deriving DecidableEq, Repr

/-- State before the component mounts. -/
def fvInit : FVState := { pending := false, fitViewRuns := 0 }

/-- One event-loop step: `setTimeout` schedules the callback, `clearTimeout`
discards a pending callback, and a timer tick executes the callback exactly
when it is still pending. -/
def fvStep (s : FVState) (e : FVEvent) : FVState :=
  match e with
  | FVEvent.effectRun => { s with pending := true }
  | FVEvent.cleanupRun => { s with pending := false }
  | FVEvent.timerTick =>
    if s.pending then { pending := false, fitViewRuns := s.fitViewRuns + 1 } else s

/-- Run a sequence of event-loop events. -/
def fvRun (s : FVState) (es : List FVEvent) : FVState :=
  es.foldl fvStep s

/-- A concrete layout engine instance used to exercise the adapter: it places
every node's center at (7, 9). -/
def sampleAlg : LayoutAlg := fun _ _ => { x := 7, y := 9 }

/-- A concrete node with a measured size of 10×20. -/
def sampleNodeMeasured : MeasuredNode :=
  { id := "m", type := none, position := { x := 0, y := 0 }, data := [],
    measured := some { width := some 10, height := some 20 }, style := none }

/-- A concrete unmeasured node with a pre-existing style. -/
def sampleNodeB : MeasuredNode :=
  { id := "b", type := some "default", position := { x := 1, y := 2 },
    data := [("label", "B")], measured := none,
    style := some [("background", some "red")] }

/-- A dark-base theme with every individual color field absent. -/
def darkBaseTheme : ThemeArgs :=
  { base := some "dark", secondaryBackgroundColor := none,
    textColor := none, primaryColor := none }

/-- A light-base theme with every individual color field absent. -/
def lightBaseTheme : ThemeArgs :=
  { base := some "light", secondaryBackgroundColor := none,
    textColor := none, primaryColor := none }

theorem hasGraphNode_of_mem {nodes : List MeasuredNode} {edges : List FlowEdge}
    {opts : LayoutOptions} {n : MeasuredNode} (h : n ∈ nodes) :
    hasGraphNode (buildDagreGraph nodes edges opts) n.id = true := by
  simp only [hasGraphNode, buildDagreGraph, Bool.or_eq_true, List.any_eq_true]
  left
  exact ⟨(n.id, dagreNodeLabelOf n), List.mem_map_of_mem _ h, by simp⟩

theorem layoutNodesList_eq_map {alg : LayoutAlg} {g : DagreGraph}
    {l : List MeasuredNode} (h : ∀ n ∈ l, hasGraphNode g n.id = true) :
    layoutNodesList alg g l = some (l.map (fun n => layoutedNode n (alg g n.id))) := by
  induction l with
  | nil => rfl
  | cons a t ih =>
    have ha : hasGraphNode g a.id = true := h a (List.mem_cons_self a t)
    have ht : ∀ n ∈ t, hasGraphNode g n.id = true :=
      fun n hn => h n (List.mem_cons_of_mem _ hn)
    simp [layoutNodesList, dagreNodeAfterLayout, ha, ih ht]

/-- The layout never fails on its own node list: every input node id was
`setNode`-ed into the graph, so every `g.node(node.id)` lookup succeeds. -/
theorem getLayoutedElements_eq (alg : LayoutAlg) (nodes : List MeasuredNode)
    (edges : List FlowEdge) (opts : LayoutOptions) :
    getLayoutedElements alg nodes edges opts =
      some (nodes.map (layoutUpdate alg (buildDagreGraph nodes edges opts)), edges) := by
  show Option.map _ (layoutNodesList alg (buildDagreGraph nodes edges opts) nodes) = _
  rw [layoutNodesList_eq_map (fun n hn => hasGraphNode_of_mem hn)]
  rfl

theorem setBorderEntry_eq_true {kv : String × Option String} (v : Option String)
    (hb : (kv.1 == "border") = true) : setBorderEntry v kv = (kv.1, v) := by
  unfold setBorderEntry
  rw [if_pos hb]

theorem setBorderEntry_eq_false {kv : String × Option String} (v : Option String)
    (hb : (kv.1 == "border") = false) : setBorderEntry v kv = kv := by
  unfold setBorderEntry
  rw [if_neg (by simp [hb])]

theorem setBorderEntry_fst (v : Option String) (kv : String × Option String) :
    (setBorderEntry v kv).1 = kv.1 := by
  cases hb : kv.1 == "border" with
  | true => rw [setBorderEntry_eq_true v hb]
  | false => rw [setBorderEntry_eq_false v hb]

theorem setBorderEntry_idem (v : Option String) (kv : String × Option String) :
    setBorderEntry v (setBorderEntry v kv) = setBorderEntry v kv := by
  cases hb : kv.1 == "border" with
  | true =>
    rw [setBorderEntry_eq_true v hb]
    exact @setBorderEntry_eq_true (kv.1, v) v hb
  | false =>
    rw [setBorderEntry_eq_false v hb, setBorderEntry_eq_false v hb]

theorem spreadBorder_eq_map {st : StyleMap} (v : Option String)
    (hs : st.any (fun kv => kv.1 == "border") = true) :
    spreadBorder st v = st.map (setBorderEntry v) := by
  unfold spreadBorder
  rw [if_pos hs]

theorem spreadBorder_eq_append {st : StyleMap} (v : Option String)
    (hs : st.any (fun kv => kv.1 == "border") = false) :
    spreadBorder st v = st ++ [("border", v)] := by
  unfold spreadBorder
  rw [if_neg (by simp [hs])]

theorem styleLookup_cons (k : String) (w : Option String) (rest : StyleMap)
    (key : String) :
    styleLookup ((k, w) :: rest) key
      = if k = key then some w else styleLookup rest key := rfl

theorem spreadBorder_any (st : StyleMap) (v : Option String) :
    (spreadBorder st v).any (fun kv => kv.1 == "border") = true := by
  cases hs : st.any (fun kv => kv.1 == "border") with
  | false =>
    rw [spreadBorder_eq_append v hs]
    simp [List.any_append]
  | true =>
    rw [spreadBorder_eq_map v hs]
    rcases List.any_eq_true.mp hs with ⟨kv, hmem, hb⟩
    refine List.any_eq_true.mpr ⟨setBorderEntry v kv, List.mem_map_of_mem _ hmem, ?_⟩
    rw [setBorderEntry_fst]
    exact hb

theorem styleLookup_map_set {st : StyleMap} (v : Option String)
    (h : st.any (fun kv => kv.1 == "border") = true) :
    styleLookup (st.map (setBorderEntry v)) "border" = some v := by
  induction st with
  | nil => simp at h
  | cons kv t ih =>
    rw [List.map_cons]
    cases hb : kv.1 == "border" with
    | true =>
      rw [setBorderEntry_eq_true v hb, styleLookup_cons,
        if_pos (beq_iff_eq.mp hb)]
    | false =>
      rw [List.any_cons, hb, Bool.false_or] at h
      rw [setBorderEntry_eq_false v hb]
      cases kv with
      | mk k w =>
        rw [styleLookup_cons, if_neg (by simpa using hb)]
        exact ih h

theorem styleLookup_append_set {st : StyleMap} (v : Option String)
    (h : st.any (fun kv => kv.1 == "border") = false) :
    styleLookup (st ++ [("border", v)]) "border" = some v := by
  induction st with
  | nil =>
    rw [List.nil_append, styleLookup_cons, if_pos rfl]
  | cons kv t ih =>
    rw [List.any_cons, Bool.or_eq_false_iff] at h
    cases kv with
    | mk k w =>
      rw [List.cons_append, styleLookup_cons, if_neg (by simpa using h.1)]
      exact ih h.2

/-- After the spread of `addBorderToNode`, the `border` entry is exactly the
value that was spread in. -/
theorem styleLookup_spreadBorder (st : StyleMap) (v : Option String) :
    styleLookup (spreadBorder st v) "border" = some v := by
  cases hs : st.any (fun kv => kv.1 == "border") with
  | true =>
    rw [spreadBorder_eq_map v hs]
    exact styleLookup_map_set v hs
  | false =>
    rw [spreadBorder_eq_append v hs]
    exact styleLookup_append_set v hs

theorem filter_map_set (st : StyleMap) (v : Option String) :
    (st.map (setBorderEntry v)).filter (fun kv => !(kv.1 == "border"))
      = st.filter (fun kv => !(kv.1 == "border")) := by
  induction st with
  | nil => rfl
  | cons kv t ih =>
    rw [List.map_cons]
    cases hb : kv.1 == "border" with
    | true =>
      rw [setBorderEntry_eq_true v hb]
      rw [List.filter_cons, List.filter_cons]
      simp [hb, ih]
    | false =>
      rw [setBorderEntry_eq_false v hb]
      rw [List.filter_cons, List.filter_cons]
      simp [hb, ih]

/-- The spread in `addBorderToNode` leaves every non-`border` style entry
exactly as it was. -/
theorem spreadBorder_filter (st : StyleMap) (v : Option String) :
    (spreadBorder st v).filter (fun kv => !(kv.1 == "border"))
      = st.filter (fun kv => !(kv.1 == "border")) := by
  cases hs : st.any (fun kv => kv.1 == "border") with
  | true =>
    rw [spreadBorder_eq_map v hs]
    exact filter_map_set st v
  | false =>
    rw [spreadBorder_eq_append v hs]
    simp [List.filter_append]

theorem map_set_of_no_border {st : StyleMap} (v : Option String)
    (h : st.any (fun kv => kv.1 == "border") = false) :
    st.map (setBorderEntry v) = st := by
  induction st with
  | nil => rfl
  | cons kv t ih =>
    rw [List.any_cons, Bool.or_eq_false_iff] at h
    rw [List.map_cons, setBorderEntry_eq_false v h.1, ih h.2]

theorem spreadBorder_idem (st : StyleMap) (v : Option String) :
    spreadBorder (spreadBorder st v) v = spreadBorder st v := by
  rw [spreadBorder_eq_map v (spreadBorder_any st v)]
  cases hs : st.any (fun kv => kv.1 == "border") with
  | true =>
    rw [spreadBorder_eq_map v hs, List.map_map]
    exact congrArg st.map (funext fun kv => setBorderEntry_idem v kv)
  | false =>
    rw [spreadBorder_eq_append v hs, List.map_append, map_set_of_no_border v hs]
    simp [setBorderEntry]

theorem borderUpdate_idem (p X : String) (node : MeasuredNode) :
    borderUpdate p X (borderUpdate p X node) = borderUpdate p X node := by
  cases node
  simp [borderUpdate, spreadBorder_idem]

/-- Claim C1: for every input node, the layout operation returns that node
with position equal to the layout engine's reported center minus half the
node's width and half its height, where (width, height) is the node's
measured size when present. -/
theorem layout_position_centering (alg : LayoutAlg) (nodes : List MeasuredNode)
    (edges : List FlowEdge) (opts : LayoutOptions)
    (out : List MeasuredNode × List FlowEdge)
    (hout : getLayoutedElements alg nodes edges opts = some out)
    (i : ℕ) (hi : i < nodes.length) (w h : ℚ)
    (hm : nodes[i].measured = some { width := some w, height := some h }) :
    (out.1[i]?).map (·.position)
      = some { x := (alg (buildDagreGraph nodes edges opts) nodes[i].id).x - w / 2,
               y := (alg (buildDagreGraph nodes edges opts) nodes[i].id).y - h / 2 } := by
  rw [getLayoutedElements_eq] at hout
  cases hout
  simp [List.getElem?_map, List.getElem?_eq_getElem hi, layoutUpdate, layoutedNode, hm]

theorem layout_position_centering_witness :
    ∃ out, getLayoutedElements sampleAlg [sampleNodeMeasured] [] { direction := "TB" }
        = some out ∧
      (out.1[0]?).map (·.position)
        = some { x := (7 : ℚ) - 10 / 2, y := (9 : ℚ) - 20 / 2 } :=
  ⟨_, rfl, layout_position_centering sampleAlg [sampleNodeMeasured] []
    { direction := "TB" } _ rfl 0 (by decide) 10 20 rfl⟩

/-- Claim C2: a node with no measured size is laid out with width 100 and
height 50: the graph node registered for it carries exactly (100, 50), and
the center-to-top-left conversion subtracts 100 / 2 and 50 / 2. -/
theorem layout_default_size (alg : LayoutAlg) (nodes : List MeasuredNode)
    (edges : List FlowEdge) (opts : LayoutOptions)
    (out : List MeasuredNode × List FlowEdge)
    (hout : getLayoutedElements alg nodes edges opts = some out)
    (i : ℕ) (hi : i < nodes.length)
    (hm : nodes[i].measured = none) :
    (buildDagreGraph nodes edges opts).nodeLabels[i]?
        = some (nodes[i].id, { width := 100, height := 50 }) ∧
    (out.1[i]?).map (·.position)
      = some { x := (alg (buildDagreGraph nodes edges opts) nodes[i].id).x - 100 / 2,
               y := (alg (buildDagreGraph nodes edges opts) nodes[i].id).y - 50 / 2 } := by
  rw [getLayoutedElements_eq] at hout
  cases hout
  constructor
  · simp [buildDagreGraph, dagreNodeLabelOf, hm, List.getElem?_map,
      List.getElem?_eq_getElem hi]
  · simp [List.getElem?_map, List.getElem?_eq_getElem hi, layoutUpdate, layoutedNode, hm]

theorem layout_default_size_witness :
    ∃ out, getLayoutedElements sampleAlg initialNodes initialEdges { direction := "TB" }
        = some out ∧
      (buildDagreGraph initialNodes initialEdges { direction := "TB" }).nodeLabels[0]?
          = some ("a", { width := 100, height := 50 }) ∧
      (out.1[0]?).map (·.position)
        = some { x := (7 : ℚ) - 100 / 2, y := (9 : ℚ) - 50 / 2 } :=
  ⟨_, rfl, layout_default_size sampleAlg initialNodes initialEdges
    { direction := "TB" } _ rfl 0 (by decide) rfl⟩

/-- Claim C3: on any input in which some edge's source or target id does not
occur among the node ids — the built-in default graph with its dangling edge
a→c being one instance — the layout operation still succeeds and returns one
output node per input node. -/
theorem layout_tolerates_dangling (alg : LayoutAlg) (nodes : List MeasuredNode)
    (edges : List FlowEdge) (opts : LayoutOptions)
    (_hd : hasDanglingEdge nodes edges = true) :
    ∃ out, getLayoutedElements alg nodes edges opts = some out
      ∧ out.1.length = nodes.length :=
  ⟨_, getLayoutedElements_eq alg nodes edges opts, by simp⟩

theorem layout_tolerates_dangling_witness :
    hasDanglingEdge initialNodes initialEdges = true ∧
    ∃ out, getLayoutedElements sampleAlg initialNodes initialEdges { direction := "TB" }
        = some out ∧ out.1.length = 1 :=
  ⟨by decide, layout_tolerates_dangling sampleAlg initialNodes initialEdges
    { direction := "TB" } (by decide)⟩

/-- Claim C7: the layout operation updates only the position field — for
every input node, id, type, data, measured size and style are unchanged in
the corresponding output node — and returns the edge sequence unmodified. -/
theorem layout_frame (alg : LayoutAlg) (nodes : List MeasuredNode)
    (edges : List FlowEdge) (opts : LayoutOptions)
    (out : List MeasuredNode × List FlowEdge)
    (hout : getLayoutedElements alg nodes edges opts = some out) :
    out.2 = edges ∧ out.1.length = nodes.length ∧
    ∀ i, (hi : i < nodes.length) →
      (out.1[i]?).map (fun n => (n.id, n.type, n.data, n.measured, n.style))
        = some (nodes[i].id, nodes[i].type, nodes[i].data,
            nodes[i].measured, nodes[i].style) := by
  rw [getLayoutedElements_eq] at hout
  cases hout
  refine ⟨rfl, by simp, fun i hi => ?_⟩
  simp [List.getElem?_map, List.getElem?_eq_getElem hi, layoutUpdate, layoutedNode]

theorem layout_frame_witness :
    ∃ out, getLayoutedElements sampleAlg initialNodes initialEdges { direction := "TB" }
        = some out ∧ out.2 = initialEdges :=
  ⟨_, rfl, (layout_frame sampleAlg initialNodes initialEdges
    { direction := "TB" } _ rfl).1⟩

/-- Claim C4: after the highlight operation with target id X, no node whose
id differs from X carries the highlight border: its style's border entry is
not the themed border string. -/
theorem addBorderToNode_exclusive (p X : String) (nodes : List MeasuredNode)
    (i : ℕ) (hi : i < nodes.length) (hne : nodes[i].id ≠ X) :
    ((addBorderToNode p X nodes)[i]?).map
        (fun n => styleLookup (n.style.getD []) "border")
      ≠ some (some (some (highlightBorder p))) := by
  have key : styleLookup ((borderUpdate p X nodes[i]).style.getD []) "border"
      = some none := by
    simp only [borderUpdate]
    rw [if_neg hne]
    exact styleLookup_spreadBorder _ none
  unfold addBorderToNode
  rw [List.getElem?_map, List.getElem?_eq_getElem hi]
  simp [key]

theorem addBorderToNode_exclusive_witness :
    sampleNodeB.id ≠ "m" ∧
    ((addBorderToNode "#007bff" "m" [sampleNodeMeasured, sampleNodeB])[1]?).map
        (fun n => styleLookup (n.style.getD []) "border")
      ≠ some (some (some (highlightBorder "#007bff"))) :=
  ⟨by decide, addBorderToNode_exclusive "#007bff" "m"
    [sampleNodeMeasured, sampleNodeB] 1 (by decide) (by decide)⟩

/-- Claim C5: the highlight operation is idempotent — applying it twice with
the same target id yields exactly the same node list as applying it once. -/
theorem addBorderToNode_idem (p X : String) (nodes : List MeasuredNode) :
    addBorderToNode p X (addBorderToNode p X nodes) = addBorderToNode p X nodes := by
  unfold addBorderToNode
  rw [List.map_map]
  exact congrArg nodes.map (funext fun n => borderUpdate_idem p X n)

/-- Claim C10: the highlight operation rewrites only the border entry of each
node's style: it maps every node through a per-node update that preserves
all node fields except style and all style entries except border, gives
every node a style object with a border key, binds the target's border to
the themed highlight string and every other node's border to `undefined`. -/
theorem addBorderToNode_frame (p X : String) (nodes : List MeasuredNode)
    (node : MeasuredNode) :
    addBorderToNode p X nodes = nodes.map (borderUpdate p X) ∧
    (borderUpdate p X node).id = node.id ∧
    (borderUpdate p X node).type = node.type ∧
    (borderUpdate p X node).position = node.position ∧
    (borderUpdate p X node).data = node.data ∧
    (borderUpdate p X node).measured = node.measured ∧
    (∃ st, (borderUpdate p X node).style = some st ∧
      st.filter (fun kv => !(kv.1 == "border"))
        = (node.style.getD []).filter (fun kv => !(kv.1 == "border")) ∧
      styleLookup st "border"
        = some (if node.id = X then some (highlightBorder p) else none)) :=
  ⟨rfl, rfl, rfl, rfl, rfl, rfl,
    ⟨_, rfl, spreadBorder_filter _ _, styleLookup_spreadBorder _ _⟩⟩

/-- Claim C6: a host push of new nodes and/or edges replaces the
corresponding state wholesale with exactly the host-provided sequences —
positions verbatim, no layout computation applied to them. -/
theorem applyHostUpdate_wholesale (args : FlowChartArgs) (s : FlowState)
    (ns : List MeasuredNode) (es : List FlowEdge) :
    (args.nodes = some ns → (applyHostUpdate args s).nodes = ns) ∧
    (args.edges = some es → (applyHostUpdate args s).edges = es) := by
  constructor <;> intro h <;> simp [applyHostUpdate, h]

theorem applyHostUpdate_wholesale_witness :
    ({ nodes := some [sampleNodeB], edges := some initialEdges,
       borderNodeId := none, theme := none } : FlowChartArgs).nodes
        = some [sampleNodeB] ∧
    (applyHostUpdate
      { nodes := some [sampleNodeB], edges := some initialEdges,
        borderNodeId := none, theme := none }
      { nodes := initialNodes, edges := [] }).nodes = [sampleNodeB] :=
  ⟨rfl, (applyHostUpdate_wholesale
    { nodes := some [sampleNodeB], edges := some initialEdges,
      borderNodeId := none, theme := none }
    { nodes := initialNodes, edges := [] } [sampleNodeB] initialEdges).1 rfl⟩

theorem fvRun_no_effect {es : List FVEvent} (h : FVEvent.effectRun ∉ es) (k : ℕ) :
    fvRun { pending := false, fitViewRuns := k } es
      = { pending := false, fitViewRuns := k } := by
  induction es with
  | nil => rfl
  | cons e t ih =>
    have he : e ≠ FVEvent.effectRun := fun hh => h (hh ▸ List.mem_cons_self e t)
    have ht : FVEvent.effectRun ∉ t := fun hh => h (List.mem_cons_of_mem _ hh)
    cases e with
    | effectRun => exact absurd rfl he
    | cleanupRun => simpa [fvRun, fvStep] using ih ht
    | timerTick => simpa [fvRun, fvStep] using ih ht

/-- Claim C8: once the effect cleanup (`clearTimeout`) has run — on unmount
or before a dependency-driven effect re-run — and no new effect run schedules
a fresh timer, the deferred fit-view callback never executes: the count of
`fitView` executions never changes after the cleanup. -/
theorem fitView_canceled (pre post : List FVEvent)
    (hpost : FVEvent.effectRun ∉ post) :
    (fvRun fvInit (pre ++ FVEvent.cleanupRun :: post)).fitViewRuns
      = (fvRun fvInit pre).fitViewRuns := by
  simp only [fvRun, List.foldl_append, List.foldl_cons]
  have h1 : fvStep (List.foldl fvStep fvInit pre) FVEvent.cleanupRun
      = { pending := false,
          fitViewRuns := (List.foldl fvStep fvInit pre).fitViewRuns } := rfl
  rw [h1]
  have h2 := fvRun_no_effect hpost (List.foldl fvStep fvInit pre).fitViewRuns
  simp only [fvRun] at h2
  rw [h2]

theorem fitView_canceled_witness :
    FVEvent.effectRun ∉ [FVEvent.timerTick] ∧
    (fvRun fvInit ([FVEvent.effectRun] ++ FVEvent.cleanupRun :: [FVEvent.timerTick])).fitViewRuns
      = (fvRun fvInit [FVEvent.effectRun]).fitViewRuns :=
  ⟨by decide, fitView_canceled [FVEvent.effectRun] [FVEvent.timerTick] (by decide)⟩

/-- Claim C9, counterexample: with `primaryColor` absent, the resolved
primary color under `base = "dark"` and under `base = "light"` is the same
fixed string `"#007bff"` — unlike the background and text defaults, which do
change with `base` — so the primary-color default is not derived from
`theme.base`. -/
theorem useFlowChartStyles_primary_constant :
    (useFlowChartStyles (some darkBaseTheme)).primaryColor
      = (useFlowChartStyles (some lightBaseTheme)).primaryColor ∧
    (useFlowChartStyles (some darkBaseTheme)).primaryColor = "#007bff" ∧
    (useFlowChartStyles (some darkBaseTheme)).backgroundColor = "#333" ∧
    (useFlowChartStyles (some lightBaseTheme)).backgroundColor = "#fff" := by
  refine ⟨rfl, rfl, rfl, rfl⟩

/-- Claim C9, amended: when an individual theme field is absent, background
and text defaults are derived from `theme.base` ("#333"/"#fff" background and
"#fff"/"#000" text for dark/other), while the primary-color default is the
fixed string "#007bff" independent of `base`. -/
theorem useFlowChartStyles_defaults (theme : Option ThemeArgs) :
    (theme.bind (·.secondaryBackgroundColor) = none →
      (useFlowChartStyles theme).backgroundColor
        = (if (theme.bind (·.base)) == some "dark" then "#333" else "#fff")) ∧
    (theme.bind (·.textColor) = none →
      (useFlowChartStyles theme).textColor
        = (if (theme.bind (·.base)) == some "dark" then "#fff" else "#000")) ∧
    (theme.bind (·.primaryColor) = none →
      (useFlowChartStyles theme).primaryColor = "#007bff") := by
  refine ⟨?_, ?_, ?_⟩ <;> intro h <;> simp [useFlowChartStyles, jsOr, h]

theorem useFlowChartStyles_defaults_witness :
    (useFlowChartStyles (some darkBaseTheme)).backgroundColor = "#333" ∧
    (useFlowChartStyles (some darkBaseTheme)).textColor = "#fff" ∧
    (useFlowChartStyles (some darkBaseTheme)).primaryColor = "#007bff" :=
  ⟨(useFlowChartStyles_defaults (some darkBaseTheme)).1 rfl,
   (useFlowChartStyles_defaults (some darkBaseTheme)).2.1 rfl,
   (useFlowChartStyles_defaults (some darkBaseTheme)).2.2 rfl⟩

end STReactFlow
